import Mathlib

/-!
Verification development for the dashTranscode service (src/main.rs).

The service watches a directory for filesystem events, filters them down to
video files by extension, and for each qualifying path spawns a job that
sleeps two seconds and then invokes ffmpeg to produce a DASH rendition.

The embedding models OS strings as lists of units that are either a decoded
character or an undecodable byte run (`OsChar.bad`), paths as lists of
components, and the filesystem / process boundary as oracles, so that each
function of the source becomes a pure Lean function returning an outcome
together with the ordered list of side effects it performed.
-/

/-- One unit of an OS string: a character that decodes as text, or an
undecodable byte run (e.g. invalid UTF-8 on Unix). A dot is always a
decoded character, since 0x2E never occurs inside a multi-byte sequence. -/
inductive OsChar where
  | ch (c : Char)
  | bad
  deriving DecidableEq, Repr

/-- An OS string (the contents of one `OsStr`). -/
abbrev OsStr := List OsChar

/-- A path, as its list of components (`PathBuf` in the source). -/
abbrev FsPath := List OsStr

namespace OsChar

/-- Whether the unit is a decoded character. -/
def isCh : OsChar → Bool
  | .ch _ => true
  | .bad => false

/-- The decoded character, if any. -/
def toChar? : OsChar → Option Char
  | .ch c => some c
  | .bad => none

/-- Lossy decoding as used by `Path::display`: undecodable units become
the replacement character. -/
def lossy : OsChar → Char
  | .ch c => c
  | .bad => Char.ofNat 0xFFFD

end OsChar

/-- `OsStr::to_str`: succeeds exactly when every unit decodes. -/
def osToStr (f : OsStr) : Option String :=
  if f.all OsChar.isCh then some (String.mk (f.filterMap OsChar.toChar?))
  else none

/-- Embed a Rust `&str` as an OS string (always decodable). -/
def osOfString (s : String) : OsStr :=
  s.data.map OsChar.ch

/-- `Path::to_str` on our component model: all components must decode;
components are joined by the separator. -/
def pathToStr (p : FsPath) : Option String :=
  if p.all (fun f => (osToStr f).isSome) then
    some (String.intercalate "/" (p.filterMap osToStr))
  else none

/-- `OsStr` part of `Path::display`: lossy decoding. -/
def displayOs (f : OsStr) : String :=
  String.mk (f.map OsChar.lossy)

/-- `Path::display`: lossy decoding of every component. -/
def displayPath (p : FsPath) : String :=
  String.intercalate "/" (p.map displayOs)

/-- Index of the last dot in an OS string, if any. -/
def lastDotIdx (f : OsStr) : Option Nat :=
  match f.reverse.findIdx? (fun c => c == OsChar.ch '.') with
  | none => none
  | some k => some (f.length - 1 - k)

/-- Rust `rsplit_file_at_dot`: split a file name at its last dot, returning
(portion before, portion after). No dot yields `(none, whole)`; a name whose
only dot is leading (or the literal `..`) yields `(whole, none)`. -/
def rsplitFileAtDot (f : OsStr) : Option OsStr × Option OsStr :=
  if f = [OsChar.ch '.', OsChar.ch '.'] then (some f, none)
  else
    match lastDotIdx f with
    | none => (none, some f)
    | some i =>
      if i = 0 then (some f, none)
      else (some (f.take i), some (f.drop (i + 1)))

namespace FsPath

/-- `Path::file_name`: the last component. -/
def fileName (p : FsPath) : Option OsStr :=
  p.getLast?

/-- `Path::parent`: the path without its last component. -/
def parent (p : FsPath) : Option FsPath :=
  match p with
  | [] => none
  | _ :: _ => some p.dropLast

/-- `Path::file_stem`: the part of the file name before its last dot
(the whole name when there is no dot or only a leading one). -/
def fileStem (p : FsPath) : Option OsStr :=
  match p.fileName with
  | none => none
  | some f =>
    match rsplitFileAtDot f with
    | (some b, _) => some b
    | (none, a) => a

/-- `Path::extension`: the part of the file name after its last dot,
provided the name does not consist of only a leading dot part. -/
def extension (p : FsPath) : Option OsStr :=
  match p.fileName with
  | none => none
  | some f =>
    match rsplitFileAtDot f with
    | (some _, a) => a
    | (none, _) => none

end FsPath

/-- ASCII lower-casing of one character, as in Rust `to_ascii_lowercase`. -/
def toAsciiLower (c : Char) : Char :=
  if 'A' ≤ c ∧ c ≤ 'Z' then Char.ofNat (c.toNat + 32) else c

/-- Rust `str::eq_ignore_ascii_case`. -/
def eqIgnoreAsciiCase (a b : String) : Bool :=
  a.data.map toAsciiLower == b.data.map toAsciiLower

/-- The service configuration (struct `ServiceConfig` in the source). -/
structure ServiceConfig where
  watch_folder : String
  video_extensions : List String
  ffmpeg_path : String
  segment_duration : Nat
  ffmpeg_preset : String
  ffmpeg_crf : Nat
  audio_bitrate : String
  deriving Repr

/-- Rust `str::parse::<u32>`: an optional leading plus sign, then one or
more ASCII digits, value below 2^32; anything else fails. -/
def parseU32 (s : String) : Option Nat :=
  let cs := match s.data with
    | '+' :: rest => rest
    | cs => cs
  if cs ≠ [] ∧ cs.all Char.isDigit then
    let n := cs.foldl (fun acc c => acc * 10 + (c.toNat - 48)) 0
    if n < 4294967296 then some n else none
  else none

/-- Environment lookup with a default, as `env::var(..).unwrap_or_else`. -/
def getEnvOr (env : String → Option String) (k d : String) : String :=
  (env k).getD d

/-- `load_config_from_env`: read every setting from the environment,
falling back to the documented defaults; numeric values that fail to
parse fall back silently. -/
def load_config_from_env (env : String → Option String) : ServiceConfig :=
  { watch_folder := getEnvOr env "WATCH_FOLDER" "/var/watch/videos"
    video_extensions :=
      ((getEnvOr env "VIDEO_EXTENSIONS" "mp4,avi,mkv,mov,wmv,flv").splitOn ",").map
        String.trim
    ffmpeg_path := getEnvOr env "FFMPEG_PATH" "ffmpeg"
    segment_duration := (parseU32 (getEnvOr env "SEGMENT_DURATION" "4")).getD 4
    ffmpeg_preset := getEnvOr env "FFMPEG_PRESET" "medium"
    ffmpeg_crf := (parseU32 (getEnvOr env "FFMPEG_CRF" "23")).getD 23
    audio_bitrate := getEnvOr env "AUDIO_BITRATE" "128k" }

/-- `is_video_file`: the path has an extension, the extension decodes as
text, and some configured extension matches it ASCII-case-insensitively. -/
def is_video_file (path : FsPath) (extensions : List String) : Bool :=
  match path.extension with
  | some ext =>
    match osToStr ext with
    | some ext_str => extensions.any (fun e => eqIgnoreAsciiCase e ext_str)
    | none => false
  | none => false

/-- The qualification condition exactly as the specification words it: the
filename extension decodes as text and matches a configured entry
case-insensitively. -/
def qualifiesSpec (p : FsPath) (exts : List String) : Prop :=
  ∃ ext, p.extension = some ext ∧
    ∃ ext_str, osToStr ext = some ext_str ∧
      ∃ e ∈ exts, eqIgnoreAsciiCase e ext_str = true

instance (p : FsPath) (exts : List String) : Decidable (qualifiesSpec p exts) := by
  unfold qualifiesSpec
  infer_instance

/-- The kind of a filesystem notification (`notify::EventKind`). -/
inductive EventKind where
  | any
  | access
  | create
  | modify
  | remove
  | other
  deriving DecidableEq, Repr

/-- A filesystem notification (`notify::Event`): a kind plus the affected
paths. -/
structure FsEvent where
  kind : EventKind
  paths : List FsPath
  deriving DecidableEq, Repr

/-- The body of the watch loop for one received event: on a create or
modify event, one job is spawned per affected path that passes
`is_video_file`; every other event spawns nothing. The returned list holds
the input path of each spawned job, in spawn order. -/
def jobsForEvent (e : FsEvent) (exts : List String) : List FsPath :=
  match e.kind with
  | .create => e.paths.filter (fun p => is_video_file p exts)
  | .modify => e.paths.filter (fun p => is_video_file p exts)
  | _ => []

/-- The result of a finished encoder subprocess (`std::process::Output`,
with the two streams already lossily decoded). -/
structure ProcOutput where
  success : Bool
  stdout : String
  stderr : String
  deriving DecidableEq, Repr

/-- Oracle for the effectful boundary of one job: whether creating a given
directory succeeds, and what running the encoder with given executable and
arguments yields (`none` = the process could not be started). -/
structure FsOracle where
  createDirOk : FsPath → Bool
  spawn : String → List String → Option ProcOutput

/-- Job-scoped errors of `convert_to_dash`, carrying what their anyhow
context carries. -/
inductive JobError where
  | invalidFileName
  | invalidUtf8
  | noParent
  | createDirFailed (dir : String)
  | spawnFailed
  | encodeFailed (stderr : String)
  deriving DecidableEq, Repr

/-- How a job ends: the `Ok` value, an error value, or a panic (an
`unwrap` that fired). -/
inductive Outcome where
  | ok
  | err (e : JobError)
  | panicked
  deriving DecidableEq, Repr

/-- One observable side effect of a job, in program order. -/
inductive Effect where
  | logInfo (msg : String)
  | logError (msg : String)
  | sleepSecs (n : Nat)
  | createDir (d : FsPath)
  | spawn (exe : String) (args : List String)
  deriving DecidableEq, Repr

/-- Whether an effect is an encoder invocation. -/
def Effect.isSpawn : Effect → Bool
  | .spawn _ _ => true
  | _ => false

/-- The display text of a `JobError`, as anyhow formats it with `{}`
(the topmost context or the bail message). -/
def errMsg : JobError → String
  | .invalidFileName => "Invalid file name"
  | .invalidUtf8 => "Invalid UTF-8 in file name"
  | .noParent => "No parent directory"
  | .createDirFailed d => "Failed to create output directory: " ++ d
  | .spawnFailed => "Failed to execute FFmpeg"
  | .encodeFailed stderr => "FFmpeg DASH conversion failed: " ++ stderr

/-- The ffmpeg argument list built in `convert_to_dash` (the `.args([..])`
array), given the already-converted input, segment-template and manifest
strings. -/
def ffmpegArgs (config : ServiceConfig)
    (input_str init_name media_name manifest_str : String) : List String :=
  ["-i", input_str,
   "-c:v", "libx264",
   "-preset", config.ffmpeg_preset,
   "-crf", toString config.ffmpeg_crf,
   "-c:a", "aac",
   "-b:a", config.audio_bitrate,
   "-f", "dash",
   "-seg_duration", toString config.segment_duration,
   "-use_template", "1",
   "-use_timeline", "1",
   "-init_seg_name", init_name,
   "-media_seg_name", media_name,
   manifest_str]

/-- `convert_to_dash`: derive the file stem and output locations, create
the output directory, build the ffmpeg argument list, run the encoder and
classify the result. Follows the source line by line; each `to_str()`
`unwrap` that can fire is a `panicked` outcome. -/
def convert_to_dash (video_path : FsPath) (config : ServiceConfig) (fs : FsOracle) :
    Outcome × List Effect :=
  match video_path.fileStem with
  | none => (.err .invalidFileName, [])
  | some stemOs =>
    match osToStr stemOs with
    | none => (.err .invalidUtf8, [])
    | some file_stem =>
      match video_path.parent with
      | none => (.err .noParent, [])
      | some parent_dir =>
        let output_dir := parent_dir ++ [osOfString file_stem]
        let preLogs : List Effect :=
          [.logInfo ("Converting " ++ displayPath video_path ++ " to DASH format"),
           .logInfo ("Output directory: " ++ displayPath output_dir)]
        if fs.createDirOk output_dir = false then
          (.err (.createDirFailed (displayPath output_dir)),
           preLogs ++ [.createDir output_dir])
        else
          let manifest_path := output_dir ++ [osOfString "manifest.mpd"]
          let init_seg := output_dir ++ [osOfString "init-stream$RepresentationID$.m4s"]
          let media_seg :=
            output_dir ++ [osOfString "chunk-stream$RepresentationID$-$Number%05d$.m4s"]
          let eff0 := preLogs ++
            [.createDir output_dir, .logInfo "Creating DASH segments with FFmpeg..."]
          match pathToStr video_path with
          | none => (.panicked, eff0)
          | some input_str =>
            match init_seg.fileName.bind osToStr with
            | none => (.panicked, eff0)
            | some init_name =>
              match media_seg.fileName.bind osToStr with
              | none => (.panicked, eff0)
              | some media_name =>
                match pathToStr manifest_path with
                | none => (.panicked, eff0)
                | some manifest_str =>
                  let args := ffmpegArgs config input_str init_name media_name manifest_str
                  let eff1 := eff0 ++ [.spawn config.ffmpeg_path args]
                  match fs.spawn config.ffmpeg_path args with
                  | none => (.err .spawnFailed, eff1)
                  | some out =>
                    if out.success = false then
                      (.err (.encodeFailed out.stderr), eff1)
                    else
                      (.ok,
                       eff1 ++ [.logInfo "DASH segmentation completed successfully"] ++
                       (if out.stdout ≠ "" then
                          [Effect.logInfo ("FFmpeg output: " ++ out.stdout)]
                        else []) ++
                       [.logInfo ("Successfully converted " ++ displayPath video_path ++
                          " to DASH format"),
                        .logInfo ("Manifest location: " ++ displayPath manifest_path)])

/-- The output directory the specification prescribes:
`parent(input)` joined with `fileStem(input)`. -/
def outputDirOf (p : FsPath) : Option FsPath :=
  match p.parent, p.fileStem.bind osToStr with
  | some par, some stem => some (par ++ [osOfString stem])
  | _, _ => none

/-- The manifest path the specification prescribes:
`outputDir/manifest.mpd`. -/
def manifestPathOf (p : FsPath) : Option FsPath :=
  (outputDirOf p).map (fun d => d ++ [osOfString "manifest.mpd"])

/-- `process_video_file`: the body of one spawned job — log detection,
sleep the fixed two-second settle delay, run the conversion, log its
outcome. Returns the job's ordered effect trace. -/
def process_video_file (p : FsPath) (config : ServiceConfig) (fs : FsOracle) :
    List Effect :=
  let c := convert_to_dash p config fs
  [.logInfo ("New video file detected: " ++ displayPath p), .sleepSecs 2] ++ c.2 ++
  (match c.1 with
   | .ok => [.logInfo ("Successfully processed " ++ displayPath p)]
   | .err e => [.logError ("Error processing " ++ displayPath p ++ ": " ++ errMsg e)]
   | .panicked => [])

/-- An error delivered by the notification mechanism
(`notify::Error`, kept abstract). -/
structure NotifyError where
  msg : String
  deriving DecidableEq, Repr

/-- Oracle for the startup boundary of `watch_folder`: whether the watch
directory exists, whether creating it succeeds, whether constructing the
watcher succeeds, and whether the watch subscription succeeds. -/
structure WatchOracle where
  watchPathExists : Bool
  createWatchDirOk : Bool
  watcherNewOk : Bool
  watchCallOk : Bool
  deriving DecidableEq, Repr

/-- Startup errors of `watch_folder`, each propagated out by `?`. -/
inductive WatchError where
  | createWatchDirFailed
  | watcherNewFailed
  | watchCallFailed
  deriving DecidableEq, Repr

/-- One observable step of `watch_folder`, in program order. -/
inductive WatchEffect where
  | createWatchDir (d : String)
  | subscribe (d : String)
  | dispatch (p : FsPath)
  deriving DecidableEq, Repr

/-- What the notification callback forwards to the channel: only the `Ok`
events; errors are dropped (`if let Ok(event) = res`). -/
def channelEvents (raw : List (Except NotifyError FsEvent)) : List FsEvent :=
  raw.filterMap (fun r =>
    match r with
    | .ok e => some e
    | .error _ => none)

/-- All job input paths dispatched over the whole (finite) event stream,
in order. -/
def dispatchedJobs (exts : List String) (raw : List (Except NotifyError FsEvent)) :
    List FsPath :=
  ((channelEvents raw).map (fun e => jobsForEvent e exts)).flatten

/-- `watch_folder`: provision the watch directory if absent, construct the
watcher, subscribe, then consume the channel until the stream ends,
spawning one job per qualifying path. The finite `raw` list models the
callback invocations up to stream end; the `Ok` result carries the spawned
job paths. -/
def watch_folder (config : ServiceConfig) (o : WatchOracle)
    (raw : List (Except NotifyError FsEvent)) :
    Except WatchError (List FsPath) × List WatchEffect :=
  let pre : List WatchEffect :=
    if o.watchPathExists then [] else [.createWatchDir config.watch_folder]
  if o.watchPathExists = false ∧ o.createWatchDirOk = false then
    (.error .createWatchDirFailed, pre)
  else if o.watcherNewOk = false then
    (.error .watcherNewFailed, pre)
  else if o.watchCallOk = false then
    (.error .watchCallFailed, pre ++ [.subscribe config.watch_folder])
  else
    let jobs := dispatchedJobs config.video_extensions raw
    (.ok jobs, pre ++ [.subscribe config.watch_folder] ++ jobs.map .dispatch)

/-- `main`: load the configuration, run `watch_folder`, exit 0 on `Ok` and
nonzero (anyhow reports 1) on `Err`. -/
def mainExitCode (env : String → Option String) (o : WatchOracle)
    (raw : List (Except NotifyError FsEvent)) : Nat :=
  match (watch_folder (load_config_from_env env) o raw).1 with
  | .ok _ => 0
  | .error _ => 1

/-- A small concrete configuration, used to evaluate the model on
concrete inputs. -/
def cfgA : ServiceConfig :=
  { watch_folder := "w", video_extensions := ["mp4"], ffmpeg_path := "f",
    segment_duration := 1, ffmpeg_preset := "p", ffmpeg_crf := 1,
    audio_bitrate := "b" }

/-- An oracle on which every directory creation succeeds and every spawn
exits with status zero and empty streams. -/
def fsA : FsOracle :=
  { createDirOk := fun _ => true, spawn := fun _ _ => some ⟨true, "", ""⟩ }

/-- A concrete single-component input path `a.mp4`. -/
def pA : FsPath := [osOfString "a.mp4"]

/-- A concrete input path whose parent directory component is undecodable
but whose file name `a.mp4` is plain text. -/
def pBadDir : FsPath := [[OsChar.bad], osOfString "a.mp4"]

/-- The argument list `convert_to_dash` builds for `pA` under `cfgA`. -/
def argsA : List String :=
  ["-i", "a.mp4", "-c:v", "libx264", "-preset", "p", "-crf", "1",
   "-c:a", "aac", "-b:a", "b", "-f", "dash", "-seg_duration", "1",
   "-use_template", "1", "-use_timeline", "1",
   "-init_seg_name", "init-stream$RepresentationID$.m4s",
   "-media_seg_name", "chunk-stream$RepresentationID$-$Number%05d$.m4s",
   "a/manifest.mpd"]

/-! ## Theorems -/

theorem osToStr_osOfString (s : String) : osToStr (osOfString s) = some s := by
  have h1 : (osOfString s).all OsChar.isCh = true := by
    simp [osOfString, List.all_map, OsChar.isCh, Function.comp]
  have h2 : (osOfString s).filterMap OsChar.toChar? = s.data := by
    rw [osOfString, List.filterMap_map]
    have hc : (OsChar.toChar? ∘ OsChar.ch) = some := rfl
    rw [hc, List.filterMap_some]
  rw [osToStr, if_pos h1, h2]

theorem osToStr_isSome_iff (f : OsStr) :
    (osToStr f).isSome = true ↔ f.all OsChar.isCh = true := by
  unfold osToStr
  split <;> simp_all

theorem pathToStr_isSome_iff (p : FsPath) :
    (pathToStr p).isSome = true ↔ ∀ f ∈ p, (osToStr f).isSome = true := by
  unfold pathToStr
  split <;> simp_all [List.all_eq_true]

theorem count_filter_eq {α : Type} [BEq α] [LawfulBEq α] (l : List α) (f : α → Bool) (a : α) :
    (l.filter f).count a = if f a = true then l.count a else 0 := by
  by_cases h : f a = true
  · rw [if_pos h]
    exact List.count_filter h
  · rw [if_neg h]
    simp only [List.count_eq_zero]
    intro hmem
    exact h (List.mem_filter.mp hmem).2

theorem is_video_file_iff (p : FsPath) (exts : List String) :
    is_video_file p exts = true ↔ qualifiesSpec p exts := by
  unfold is_video_file qualifiesSpec
  cases hext : p.extension with
  | none => simp
  | some ext =>
    cases hstr : osToStr ext with
    | none => simp [hstr]
    | some ext_str => simp [hstr, List.any_eq_true]

/-- C1: for every filesystem event, the watch loop spawns a job exactly for
each affected path of a create or modify event that passes `is_video_file`,
and zero jobs for every other path or event kind; and `is_video_file`
holds exactly when the filename extension decodes as text and matches a
configured entry case-insensitively. -/
theorem C1_job_per_qualifying_path (e : FsEvent) (exts : List String) (p : FsPath) :
    ((jobsForEvent e exts).count p =
      if (e.kind = .create ∨ e.kind = .modify) ∧ is_video_file p exts = true
      then e.paths.count p else 0) ∧
    (is_video_file p exts = true ↔ qualifiesSpec p exts) := by
  refine ⟨?_, is_video_file_iff p exts⟩
  cases hk : e.kind <;>
    simp [jobsForEvent, hk, count_filter_eq]

/-- C5: a job whose input path has no file stem, or whose stem is not
representable as text, fails with a job-scoped error before any side
effect: the conversion performs no effect at all, in particular it creates
no directory and spawns no process. -/
theorem C5_stem_failure_no_side_effects (p : FsPath) (cfg : ServiceConfig)
    (fs : FsOracle) (h : p.fileStem.bind osToStr = none) :
    ((convert_to_dash p cfg fs).1 = .err .invalidFileName ∨
     (convert_to_dash p cfg fs).1 = .err .invalidUtf8) ∧
    (convert_to_dash p cfg fs).2 = [] := by
  cases hstem : p.fileStem with
  | none => simp [convert_to_dash, hstem]
  | some st =>
    rw [hstem] at h
    simp only [Option.some_bind] at h
    simp [convert_to_dash, hstem, h]

/-- C5 witness: a path whose single component is an undecodable file name
fails with no effects. -/
theorem C5_witness :
    ((convert_to_dash [[OsChar.bad]] cfgA fsA).1 = .err .invalidFileName ∨
     (convert_to_dash [[OsChar.bad]] cfgA fsA).1 = .err .invalidUtf8) ∧
    (convert_to_dash [[OsChar.bad]] cfgA fsA).2 = [] :=
  C5_stem_failure_no_side_effects [[OsChar.bad]] cfgA fsA (by decide)

/-- C6 counterexample: with `SEGMENT_DURATION` set to the string "0", the
loaded configuration's segment duration is 0, which is not positive, so
the claim fails for that environment. -/
theorem C6_counterexample :
    ¬ (0 < (load_config_from_env
      (fun k => if k = "SEGMENT_DURATION" then some "0" else none)).segment_duration) := by
  decide

/-- C6 amended: the loaded segment duration is a positive integer for
every environment whose `SEGMENT_DURATION` value, when present, does not
parse as the u32 zero; in particular it is 4 when the variable is absent
or unparsable. -/
theorem C6_amended_positive_segment_duration (env : String → Option String)
    (h : ∀ v, env "SEGMENT_DURATION" = some v → parseU32 v ≠ some 0) :
    0 < (load_config_from_env env).segment_duration := by
  unfold load_config_from_env getEnvOr
  cases hv : env "SEGMENT_DURATION" with
  | none => simp only [Option.getD_none]; decide
  | some v =>
    simp only [Option.getD_some]
    cases hp : parseU32 v with
    | none => simp [hp]
    | some n =>
      cases n with
      | zero => exact absurd hp (h v hv)
      | succ m => simp [hp]

/-- C6 amended witness: with an empty environment the segment duration is
positive. -/
theorem C6_amended_witness :
    0 < (load_config_from_env (fun _ => none)).segment_duration :=
  C6_amended_positive_segment_duration (fun _ => none)
    (fun _ hv => Option.noConfusion hv)

theorem mem_of_getLast?_eq {α : Type} {l : List α} {a : α} (h : l.getLast? = some a) :
    a ∈ l := by
  cases l with
  | nil => cases h
  | cons x t =>
    rw [List.getLast?_eq_getLast (x :: t) (by simp)] at h
    injection h with h
    exact h ▸ List.getLast_mem (by simp)

theorem osToStr_take_isSome {f : OsStr} (h : (osToStr f).isSome = true) (n : Nat) :
    (osToStr (f.take n)).isSome = true := by
  rw [osToStr_isSome_iff] at h ⊢
  rw [List.all_eq_true] at h ⊢
  intro x hx
  exact h x (List.take_subset n f hx)

theorem parent_subset {p par : FsPath} (h : p.parent = some par) : par ⊆ p := by
  unfold FsPath.parent at h
  cases p with
  | nil => cases h
  | cons a t =>
    injection h with h
    subst h
    exact (List.dropLast_sublist (a :: t)).subset

theorem stem_of_fileName {fn st : OsStr}
    (h : (match rsplitFileAtDot fn with
          | (some b, _) => some b
          | (none, a) => a) = some st) :
    st = fn ∨ ∃ i, st = fn.take i := by
  unfold rsplitFileAtDot at h
  by_cases hdd : fn = [OsChar.ch '.', OsChar.ch '.']
  · rw [if_pos hdd] at h
    simp at h
    exact Or.inl h.symm
  · rw [if_neg hdd] at h
    cases hld : lastDotIdx fn with
    | none =>
      rw [hld] at h
      simp at h
      exact Or.inl h.symm
    | some i =>
      rw [hld] at h
      simp only [] at h
      by_cases hi : i = 0
      · rw [if_pos hi] at h
        simp at h
        exact Or.inl h.symm
      · rw [if_neg hi] at h
        simp at h
        exact Or.inr ⟨i, h.symm⟩

theorem fileStem_decodable {p : FsPath} {st : OsStr}
    (hst : p.fileStem = some st) (hall : ∀ f ∈ p, (osToStr f).isSome = true) :
    (osToStr st).isSome = true := by
  unfold FsPath.fileStem at hst
  cases hfn : p.fileName with
  | none => simp [hfn] at hst
  | some fn =>
    simp only [hfn] at hst
    have hfnd : (osToStr fn).isSome = true := hall fn (mem_of_getLast?_eq hfn)
    rcases stem_of_fileName hst with rfl | ⟨i, rfl⟩
    · exact hfnd
    · exact osToStr_take_isSome hfnd i

theorem pathToStr_two_appended {par : FsPath}
    (h : ∀ f ∈ par, (osToStr f).isSome = true) (s1 s2 : String) :
    (pathToStr ((par ++ [osOfString s1]) ++ [osOfString s2])).isSome = true := by
  rw [pathToStr_isSome_iff]
  intro f hf
  simp only [List.mem_append, List.mem_singleton] at hf
  rcases hf with (hf | rfl) | rfl
  · exact h f hf
  · simp [osToStr_osOfString]
  · simp [osToStr_osOfString]

/-- C9 counterexample: a path with an undecodable parent component but the
plain-text file name `a.mp4` passes qualification and has a decodable
stem, yet `convert_to_dash` panics on it (the `to_str().unwrap()` of the
full input path fires), so the claim as stated fails. -/
theorem C9_counterexample :
    is_video_file pBadDir ["mp4"] = true ∧
    (pBadDir.fileStem.bind osToStr).isSome = true ∧
    (convert_to_dash pBadDir cfgA fsA).1 = .panicked := by
  decide

/-- C9 amended: for every input path that is representable as text in
full (every component decodes), `convert_to_dash` never panics: every
failure is returned as a job-scoped error value. -/
theorem C9_amended_no_panic (p : FsPath) (cfg : ServiceConfig) (fs : FsOracle)
    (h : (pathToStr p).isSome = true) :
    (convert_to_dash p cfg fs).1 ≠ .panicked := by
  have hall : ∀ f ∈ p, (osToStr f).isSome = true := (pathToStr_isSome_iff p).mp h
  cases hstem : p.fileStem with
  | none => simp [convert_to_dash, hstem]
  | some st =>
  cases hstr : osToStr st with
  | none => simp [convert_to_dash, hstem, hstr]
  | some stem =>
  cases hpar : p.parent with
  | none => simp [convert_to_dash, hstem, hstr, hpar]
  | some par =>
  obtain ⟨ins, hins⟩ := Option.isSome_iff_exists.mp h
  have hman := pathToStr_two_appended (fun f hf => hall f (parent_subset hpar hf))
    stem "manifest.mpd"
  obtain ⟨ms, hms⟩ := Option.isSome_iff_exists.mp hman
  by_cases hcd : fs.createDirOk (par ++ [osOfString stem]) = true
  · simp only [convert_to_dash, hstem, hstr, hpar, hcd, hins, hms,
      FsPath.fileName, List.getLast?_concat, Option.some_bind, osToStr_osOfString,
      Bool.true_eq_false, if_false]
    split
    · simp
    · split <;> simp
  · rw [Bool.not_eq_true] at hcd
    simp [convert_to_dash, hstem, hstr, hpar, hcd]

/-- C9 amended witness: on a fully decodable path the conversion does not
panic. -/
theorem C9_amended_witness :
    (convert_to_dash pA cfgA fsA).1 ≠ .panicked :=
  C9_amended_no_panic pA cfgA fsA (by decide)

theorem ffmpegArgs_getLast (cfg : ServiceConfig) (a b c d : String) :
    (ffmpegArgs cfg a b c d).getLast? = some d := rfl

theorem convert_spawn_full {p : FsPath} {cfg : ServiceConfig} {fs : FsOracle}
    {exe : String} {args : List String}
    (h : Effect.spawn exe args ∈ (convert_to_dash p cfg fs).2) :
    ∃ st stem par ins ms,
      p.fileStem = some st ∧ osToStr st = some stem ∧ p.parent = some par ∧
      fs.createDirOk (par ++ [osOfString stem]) = true ∧
      pathToStr p = some ins ∧
      pathToStr ((par ++ [osOfString stem]) ++ [osOfString "manifest.mpd"]) = some ms ∧
      exe = cfg.ffmpeg_path ∧
      args = ffmpegArgs cfg ins "init-stream$RepresentationID$.m4s"
        "chunk-stream$RepresentationID$-$Number%05d$.m4s" ms ∧
      ((convert_to_dash p cfg fs).2.countP Effect.isSpawn) = 1 ∧
      Effect.createDir (par ++ [osOfString stem]) ∈ (convert_to_dash p cfg fs).2 ∧
      (fs.spawn exe args = none → (convert_to_dash p cfg fs).1 = .err .spawnFailed) ∧
      (∀ out, fs.spawn exe args = some out → out.success = false →
        (convert_to_dash p cfg fs).1 = .err (.encodeFailed out.stderr)) ∧
      (∀ out, fs.spawn exe args = some out → out.success = true →
        (convert_to_dash p cfg fs).1 = .ok ∧
        Effect.logInfo ("Manifest location: " ++
          displayPath ((par ++ [osOfString stem]) ++ [osOfString "manifest.mpd"])) ∈
            (convert_to_dash p cfg fs).2 ∧
        (out.stdout ≠ "" → Effect.logInfo ("FFmpeg output: " ++ out.stdout) ∈
          (convert_to_dash p cfg fs).2)) := by
  cases hstem : p.fileStem with
  | none => simp [convert_to_dash, hstem] at h
  | some st =>
  cases hstr : osToStr st with
  | none => simp [convert_to_dash, hstem, hstr] at h
  | some stem =>
  cases hpar : p.parent with
  | none => simp [convert_to_dash, hstem, hstr, hpar] at h
  | some par =>
  by_cases hcd : fs.createDirOk (par ++ [osOfString stem]) = true
  case neg =>
    rw [Bool.not_eq_true] at hcd
    simp [convert_to_dash, hstem, hstr, hpar, hcd] at h
  case pos =>
  cases hins : pathToStr p with
  | none =>
    simp [convert_to_dash, hstem, hstr, hpar, hcd, hins] at h
  | some ins =>
  cases hms : pathToStr ((par ++ [osOfString stem]) ++ [osOfString "manifest.mpd"]) with
  | none =>
    simp only [convert_to_dash, hstem, hstr, hpar, hcd, hins, hms, FsPath.fileName,
      List.getLast?_concat, Option.some_bind, osToStr_osOfString, Bool.true_eq_false,
      if_false] at h
    simp at h
  | some ms =>
  refine ⟨st, stem, par, ins, ms, rfl, hstr, rfl, hcd, rfl, hms, ?_⟩
  simp only [convert_to_dash, hstem, hstr, hpar, hcd, hins, hms, FsPath.fileName,
    List.getLast?_concat, Option.some_bind, osToStr_osOfString, Bool.true_eq_false,
    if_false] at h ⊢
  cases hsp : fs.spawn cfg.ffmpeg_path (ffmpegArgs cfg ins
      "init-stream$RepresentationID$.m4s"
      "chunk-stream$RepresentationID$-$Number%05d$.m4s" ms) with
  | none =>
    simp only [hsp] at h ⊢
    simp at h
    obtain ⟨rfl, rfl⟩ := h
    refine ⟨rfl, rfl, ?_, ?_, ?_, ?_, ?_⟩
    · simp [List.countP_append, List.countP_cons, Effect.isSpawn]
    · simp
    · intro _
      simp
    · intro out' hout'
      rw [hsp] at hout'
      exact Option.noConfusion hout'
    · intro out' hout'
      rw [hsp] at hout'
      exact Option.noConfusion hout'
  | some out =>
    obtain ⟨osucc, ostdout, ostderr⟩ := out
    cases osucc with
    | false =>
      simp only [hsp] at h ⊢
      simp at h
      obtain ⟨rfl, rfl⟩ := h
      refine ⟨rfl, rfl, ?_, ?_, ?_, ?_, ?_⟩
      · simp [List.countP_append, List.countP_cons, Effect.isSpawn]
      · simp
      · intro h'
        rw [hsp] at h'
        exact Option.noConfusion h'
      · intro out' hout' hsc'
        rw [hsp] at hout'
        injection hout' with hout'
        subst hout'
        simp
      · intro out' hout' hsc'
        rw [hsp] at hout'
        injection hout' with hout'
        subst hout'
        simp at hsc'
    | true =>
      by_cases hso : ostdout = ""
      · simp only [hsp] at h ⊢
        simp [hso] at h
        obtain ⟨rfl, rfl⟩ := h
        refine ⟨rfl, rfl, ?_, ?_, ?_, ?_, ?_⟩
        · simp [hso, List.countP_append, List.countP_cons, Effect.isSpawn]
        · simp [hso]
        · intro h'
          rw [hsp] at h'
          exact Option.noConfusion h'
        · intro out' hout' hsc'
          rw [hsp] at hout'
          injection hout' with hout'
          subst hout'
          simp at hsc'
        · intro out' hout' hsc'
          rw [hsp] at hout'
          injection hout' with hout'
          subst hout'
          refine ⟨by simp [hso], by simp [hso], ?_⟩
          intro hne
          simp at hne
          exact absurd hso hne
      · simp only [hsp] at h ⊢
        simp [hso] at h
        obtain ⟨rfl, rfl⟩ := h
        refine ⟨rfl, rfl, ?_, ?_, ?_, ?_, ?_⟩
        · simp [hso, List.countP_append, List.countP_cons, Effect.isSpawn]
        · simp [hso]
        · intro h'
          rw [hsp] at h'
          exact Option.noConfusion h'
        · intro out' hout' hsc'
          rw [hsp] at hout'
          injection hout' with hout'
          subst hout'
          simp at hsc'
        · intro out' hout' hsc'
          rw [hsp] at hout'
          injection hout' with hout'
          subst hout'
          refine ⟨by simp [hso], by simp [hso], ?_⟩
          intro hne
          simp [hso]

theorem convert_ok_spawn_mem {p : FsPath} {cfg : ServiceConfig} {fs : FsOracle}
    (hok : (convert_to_dash p cfg fs).1 = .ok) :
    ∃ exe args, Effect.spawn exe args ∈ (convert_to_dash p cfg fs).2 := by
  cases hstem : p.fileStem with
  | none => simp [convert_to_dash, hstem] at hok
  | some st =>
  cases hstr : osToStr st with
  | none => simp [convert_to_dash, hstem, hstr] at hok
  | some stem =>
  cases hpar : p.parent with
  | none => simp [convert_to_dash, hstem, hstr, hpar] at hok
  | some par =>
  by_cases hcd : fs.createDirOk (par ++ [osOfString stem]) = true
  case neg =>
    rw [Bool.not_eq_true] at hcd
    simp [convert_to_dash, hstem, hstr, hpar, hcd] at hok
  case pos =>
  cases hins : pathToStr p with
  | none =>
    simp [convert_to_dash, hstem, hstr, hpar, hcd, hins] at hok
  | some ins =>
  cases hms : pathToStr ((par ++ [osOfString stem]) ++ [osOfString "manifest.mpd"]) with
  | none =>
    simp only [convert_to_dash, hstem, hstr, hpar, hcd, hins, hms, FsPath.fileName,
      List.getLast?_concat, Option.some_bind, osToStr_osOfString, Bool.true_eq_false,
      if_false] at hok
    simp at hok
  | some ms =>
  simp only [convert_to_dash, hstem, hstr, hpar, hcd, hins, hms, FsPath.fileName,
    List.getLast?_concat, Option.some_bind, osToStr_osOfString, Bool.true_eq_false,
    if_false] at hok ⊢
  cases hsp : fs.spawn cfg.ffmpeg_path (ffmpegArgs cfg ins
      "init-stream$RepresentationID$.m4s"
      "chunk-stream$RepresentationID$-$Number%05d$.m4s" ms) with
  | none => simp only [hsp] at hok; simp at hok
  | some out =>
    refine ⟨cfg.ffmpeg_path, ffmpegArgs cfg ins "init-stream$RepresentationID$.m4s"
      "chunk-stream$RepresentationID$-$Number%05d$.m4s" ms, ?_⟩
    simp only [hsp]
    by_cases hsc : out.success = false
    · simp [hsc]
    · rw [if_neg hsc]
      simp

/-- C2: every job that reaches encoder invocation spawns the encoder
exactly once, with the configured executable, and with the exact argument
list: input file, fixed video codec with configured preset and CRF, fixed
audio codec with configured bitrate, DASH output with template and
timeline addressing, configured segment duration, init- and media-segment
templates (the media template carrying the 5-digit zero-padded sequence
placeholder "%05d"), and finally the derived manifest path. -/
theorem C2_encoder_invoked_once_with_args (p : FsPath) (cfg : ServiceConfig)
    (fs : FsOracle) (exe : String) (args : List String)
    (h : Effect.spawn exe args ∈ (convert_to_dash p cfg fs).2) :
    exe = cfg.ffmpeg_path ∧
    ((convert_to_dash p cfg fs).2.countP Effect.isSpawn) = 1 ∧
    (∃ input_str manifest_str D,
      pathToStr p = some input_str ∧
      outputDirOf p = some D ∧
      pathToStr (D ++ [osOfString "manifest.mpd"]) = some manifest_str ∧
      args = ["-i", input_str, "-c:v", "libx264", "-preset", cfg.ffmpeg_preset,
        "-crf", toString cfg.ffmpeg_crf, "-c:a", "aac", "-b:a", cfg.audio_bitrate,
        "-f", "dash", "-seg_duration", toString cfg.segment_duration,
        "-use_template", "1", "-use_timeline", "1",
        "-init_seg_name", "init-stream$RepresentationID$.m4s",
        "-media_seg_name", "chunk-stream$RepresentationID$-$Number%05d$.m4s",
        manifest_str]) ∧
    (∃ pre post : String,
      "chunk-stream$RepresentationID$-$Number%05d$.m4s" = pre ++ "%05d" ++ post) := by
  obtain ⟨st, stem, par, ins, ms, hstem, hstr, hpar, hcd, hins, hms, hexe, hargs,
    hcount, hcdmem, _, _, _⟩ := convert_spawn_full h
  refine ⟨hexe, hcount, ⟨ins, ms, par ++ [osOfString stem], hins, ?_, hms, ?_⟩, ?_⟩
  · simp [outputDirOf, hstem, hstr, hpar]
  · rw [hargs]
    rfl
  · exact ⟨"chunk-stream$RepresentationID$-$Number", "$.m4s", by decide⟩

/-- C2 witness: on the concrete path `a.mp4` the encoder is spawned
exactly once. -/
theorem C2_witness :
    ((convert_to_dash pA cfgA fsA).2.countP Effect.isSpawn) = 1 :=
  (C2_encoder_invoked_once_with_args pA cfgA fsA "f" argsA (by decide)).2.1

/-- C3: every successful job created exactly the output directory
`parent(input)/fileStem(input)` and handed the encoder a final argument
equal to `outputDir/manifest.mpd`, regardless of the input's original
extension. -/
theorem C3_output_locations (p : FsPath) (cfg : ServiceConfig) (fs : FsOracle)
    (h : (convert_to_dash p cfg fs).1 = .ok) :
    ∃ D M, outputDirOf p = some D ∧ manifestPathOf p = some M ∧
      Effect.createDir D ∈ (convert_to_dash p cfg fs).2 ∧
      ∃ exe args, Effect.spawn exe args ∈ (convert_to_dash p cfg fs).2 ∧
        args.getLast? = pathToStr M := by
  obtain ⟨exe, args, hmem⟩ := convert_ok_spawn_mem h
  obtain ⟨st, stem, par, ins, ms, hstem, hstr, hpar, hcd, hins, hms, hexe, hargs,
    hcount, hcdmem, _, _, _⟩ := convert_spawn_full hmem
  have hD : outputDirOf p = some (par ++ [osOfString stem]) := by
    simp [outputDirOf, hstem, hstr, hpar]
  refine ⟨par ++ [osOfString stem],
    (par ++ [osOfString stem]) ++ [osOfString "manifest.mpd"],
    hD, ?_, hcdmem, exe, args, hmem, ?_⟩
  · simp [manifestPathOf, hD]
  · rw [hargs, ffmpegArgs_getLast, hms]

/-- C3 witness: the successful conversion of `a.mp4` has its locations
derived as specified. -/
theorem C3_witness :
    ∃ D M, outputDirOf pA = some D ∧ manifestPathOf pA = some M ∧
      Effect.createDir D ∈ (convert_to_dash pA cfgA fsA).2 ∧
      ∃ exe args, Effect.spawn exe args ∈ (convert_to_dash pA cfgA fsA).2 ∧
        args.getLast? = pathToStr M :=
  C3_output_locations pA cfgA fsA (by decide)

/-- C4: for every job whose encoder subprocess was attempted: a failed
start yields the spawn error; a non-zero exit yields an encoding error
carrying the captured stderr text; a zero exit yields success, with the
manifest path reported in the result log and any non-empty stdout logged
informationally. -/
theorem C4_exit_classification (p : FsPath) (cfg : ServiceConfig) (fs : FsOracle)
    (exe : String) (args : List String)
    (h : Effect.spawn exe args ∈ (convert_to_dash p cfg fs).2) :
    (fs.spawn exe args = none → (convert_to_dash p cfg fs).1 = .err .spawnFailed) ∧
    (∀ out, fs.spawn exe args = some out → out.success = false →
      (convert_to_dash p cfg fs).1 = .err (.encodeFailed out.stderr)) ∧
    (∀ out, fs.spawn exe args = some out → out.success = true →
      (convert_to_dash p cfg fs).1 = .ok ∧
      (∃ M, manifestPathOf p = some M ∧
        Effect.logInfo ("Manifest location: " ++ displayPath M) ∈
          (convert_to_dash p cfg fs).2) ∧
      (out.stdout ≠ "" → Effect.logInfo ("FFmpeg output: " ++ out.stdout) ∈
        (convert_to_dash p cfg fs).2)) := by
  obtain ⟨st, stem, par, ins, ms, hstem, hstr, hpar, hcd, hins, hms, hexe, hargs,
    hcount, hcdmem, hnone, hfalse, htrue⟩ := convert_spawn_full h
  refine ⟨hnone, hfalse, ?_⟩
  intro out hout hsc
  obtain ⟨hok, hmani, hstdout⟩ := htrue out hout hsc
  have hD : outputDirOf p = some (par ++ [osOfString stem]) := by
    simp [outputDirOf, hstem, hstr, hpar]
  exact ⟨hok, ⟨(par ++ [osOfString stem]) ++ [osOfString "manifest.mpd"],
    by simp [manifestPathOf, hD], hmani⟩, hstdout⟩

/-- C4 witness: the zero-exit branch on the concrete success run of
`a.mp4`. -/
theorem C4_witness :
    (convert_to_dash pA cfgA fsA).1 = .ok ∧
    (∃ M, manifestPathOf pA = some M ∧
      Effect.logInfo ("Manifest location: " ++ displayPath M) ∈
        (convert_to_dash pA cfgA fsA).2) ∧
    ((⟨true, "", ""⟩ : ProcOutput).stdout ≠ "" →
      Effect.logInfo ("FFmpeg output: " ++ (⟨true, "", ""⟩ : ProcOutput).stdout) ∈
        (convert_to_dash pA cfgA fsA).2) :=
  (C4_exit_classification pA cfgA fsA "f" argsA (by decide)).2.2
    ⟨true, "", ""⟩ rfl rfl

/-- C7: every job's trace starts with the detection log followed
immediately by the constant two-second settle sleep (independent of the
configuration), and every directory creation or encoder spawn occurs
strictly after the sleep. -/
theorem C7_settle_delay_before_work (p : FsPath) (cfg : ServiceConfig) (fs : FsOracle) :
    (process_video_file p cfg fs).get? 1 = some (.sleepSecs 2) ∧
    (∀ i d, (process_video_file p cfg fs).get? i = some (Effect.createDir d) → 2 ≤ i) ∧
    (∀ i exe args,
      (process_video_file p cfg fs).get? i = some (Effect.spawn exe args) → 2 ≤ i) := by
  refine ⟨rfl, ?_, ?_⟩
  · intro i d hd
    match i with
    | 0 => simp [process_video_file] at hd
    | 1 => simp [process_video_file] at hd
    | n + 2 => omega
  · intro i exe args hs
    match i with
    | 0 => simp [process_video_file] at hs
    | 1 => simp [process_video_file] at hs
    | n + 2 => omega

/-- C7 witness: the second trace entry of a concrete job is the
two-second sleep. -/
theorem C7_witness :
    (process_video_file pA cfgA fsA).get? 1 = some (.sleepSecs 2) :=
  (C7_settle_delay_before_work pA cfgA fsA).1

/-- C8: an absent watch directory is created before subscribing and is not
an error; failure to create it or to construct or register the watcher is
fatal (exit code 1); and when the stream ends normally the process exits
with code 0. -/
theorem C8_startup_provisioning_and_exit (env : String → Option String)
    (o : WatchOracle) (raw : List (Except NotifyError FsEvent)) :
    (o.watchPathExists = false → o.createWatchDirOk = true → o.watcherNewOk = true →
      o.watchCallOk = true →
      (watch_folder (load_config_from_env env) o raw).1 =
        .ok (dispatchedJobs (load_config_from_env env).video_extensions raw) ∧
      ∃ rest, (watch_folder (load_config_from_env env) o raw).2 =
        WatchEffect.createWatchDir (load_config_from_env env).watch_folder ::
        WatchEffect.subscribe (load_config_from_env env).watch_folder :: rest) ∧
    (((o.watchPathExists = false ∧ o.createWatchDirOk = false) ∨
      o.watcherNewOk = false ∨ o.watchCallOk = false) →
      mainExitCode env o raw = 1) ∧
    ((o.watchPathExists = true ∨ o.createWatchDirOk = true) → o.watcherNewOk = true →
      o.watchCallOk = true → mainExitCode env o raw = 0) := by
  obtain ⟨e, c, n, w⟩ := o
  cases e <;> cases c <;> cases n <;> cases w <;>
    simp [watch_folder, mainExitCode]

/-- C8 witness: with an absent but creatable watch directory and a stream
that ends, the process exits 0. -/
theorem C8_witness :
    mainExitCode (fun _ => none) ⟨false, true, true, true⟩ [] = 0 :=
  (C8_startup_provisioning_and_exit (fun _ => none) ⟨false, true, true, true⟩ []).2.2
    (Or.inr rfl) rfl rfl

/-- C10: a runtime error delivered by the notification mechanism is
dropped in the callback: deleting it from the raw callback stream changes
neither the watch loop's result and effects nor the process exit code. -/
theorem C10_notify_errors_discarded (env : String → Option String) (o : WatchOracle)
    (raw1 raw2 : List (Except NotifyError FsEvent)) (err : NotifyError) :
    watch_folder (load_config_from_env env) o (raw1 ++ Except.error err :: raw2) =
      watch_folder (load_config_from_env env) o (raw1 ++ raw2) ∧
    mainExitCode env o (raw1 ++ Except.error err :: raw2) =
      mainExitCode env o (raw1 ++ raw2) := by
  have hjobs : dispatchedJobs (load_config_from_env env).video_extensions
      (raw1 ++ Except.error err :: raw2) =
      dispatchedJobs (load_config_from_env env).video_extensions (raw1 ++ raw2) := by
    simp [dispatchedJobs, channelEvents, List.filterMap_append]
  constructor
  · unfold watch_folder
    rw [hjobs]
  · unfold mainExitCode watch_folder
    rw [hjobs]
